import Mathlib

/-!
Verification of the `vue-script-merger` build plugin (`src/index.js`).

The development shallowly embeds the plugin's core logic:

* JS strings are Lean `String`s; every JS string primitive the source uses
  (`startsWith`, `endsWith`, `includes`, first-occurrence `replace`, the
  regex patterns of the default transform) is modelled as an executable
  function over `String.data` (`List Char`).
* Node's `path` helpers (`basename`, `dirname`, `extname`, `join`,
  `isAbsolute`, `relative`) are modelled for POSIX-style, already
  normalised paths, which is all the claims exercise.
* The filesystem is a record of read functions (`existsSync`,
  `readdirSync`, `readFileSync`); every call the plugin makes is recorded
  in an operation trace so that frame / cache-hit properties ("does not
  touch the filesystem", "writes nothing") are expressible.
* `fs.readdirSync` / `fs.readFileSync` failures (JS exceptions) are
  modelled with `Except`; the plugin's `try`/`catch` blocks become the
  corresponding `.error` branches.
* The unbounded directory recursion of `findMatchingFiles` is given an
  explicit `fuel` bound on recursion depth; on a real (finite, acyclic)
  directory tree any sufficiently large fuel computes the same result.
-/

namespace VueScriptMerger

/-! ### First-occurrence substring search

`splitFirst needle s` returns `some (b, a)` when `s = b ++ needle ++ a`
and this is the leftmost occurrence of `needle` in `s`.  It models the
semantics shared by JS `String.prototype.replace` with a string or
non-global regex pattern (replace the first match), `String.prototype.includes`,
and `RegExp.prototype.test` for the literal patterns in the source.
-/

def splitFirst (needle : List Char) : List Char → Option (List Char × List Char)
  | [] => none
  | c :: rest =>
    if needle.isPrefixOf (c :: rest) then
      some ([], (c :: rest).drop needle.length)
    else
      match splitFirst needle rest with
      | some (b, a) => some (c :: b, a)
      | none => none

theorem splitFirst_sound {needle : List Char} :
    ∀ {s b a : List Char}, splitFirst needle s = some (b, a) → s = b ++ needle ++ a := by
  intro s
  induction s with
  | nil => intro b a h; simp [splitFirst] at h
  | cons c rest ih =>
    intro b a h
    rw [splitFirst] at h
    by_cases hp : needle.isPrefixOf (c :: rest) = true
    · rw [if_pos hp] at h
      obtain ⟨t, ht⟩ := List.isPrefixOf_iff_prefix.mp hp
      simp only [Option.some.injEq, Prod.mk.injEq] at h
      obtain ⟨hb, ha⟩ := h
      subst hb
      subst ha
      rw [← ht, List.drop_left]
      simp
    · rw [if_neg hp] at h
      cases hsf : splitFirst needle rest with
      | none => rw [hsf] at h; simp at h
      | some pr =>
        obtain ⟨b0, a0⟩ := pr
        rw [hsf] at h
        simp only [Option.some.injEq, Prod.mk.injEq] at h
        obtain ⟨hb, ha⟩ := h
        subst hb
        subst ha
        have hr := ih hsf
        rw [hr]
        simp

theorem splitFirst_eq_some {needle : List Char} (hne : needle ≠ []) :
    ∀ {b s a : List Char}, s = b ++ needle ++ a →
      (∀ bb aa, s = bb ++ needle ++ aa → b.length ≤ bb.length) →
      splitFirst needle s = some (b, a) := by
  intro b
  induction b with
  | nil =>
    intro s a hs _
    subst hs
    obtain ⟨c, nr, hcn⟩ : ∃ c nr, needle = c :: nr := by
      cases needle with
      | nil => exact absurd rfl hne
      | cons c nr => exact ⟨c, nr, rfl⟩
    have hpre : needle.isPrefixOf (needle ++ a) = true :=
      List.isPrefixOf_iff_prefix.mpr (List.prefix_append needle a)
    subst hcn
    rw [List.nil_append, List.cons_append, splitFirst, if_pos (by simp [hpre] )]
    rw [← List.cons_append, List.drop_left]
  | cons x b ih =>
    intro s a hs hmin
    subst hs
    have hshape : (x :: b) ++ needle ++ a = x :: (b ++ needle ++ a) := by simp
    rw [hshape, splitFirst]
    have hnp : needle.isPrefixOf (x :: (b ++ needle ++ a)) ≠ true := by
      intro hc
      obtain ⟨t, ht⟩ := List.isPrefixOf_iff_prefix.mp hc
      have hd : x :: (b ++ needle ++ a) = [] ++ needle ++ t := by
        rw [← ht]; simp
      have := hmin [] t (by rw [← hshape] at hd; exact hd)
      simp at this
    rw [if_neg hnp]
    have hmin2 : ∀ bb aa, b ++ needle ++ a = bb ++ needle ++ aa → b.length ≤ bb.length := by
      intro bb aa hh
      have hd : (x :: b) ++ needle ++ a = (x :: bb) ++ needle ++ aa := by
        simp only [List.cons_append]
        rw [List.append_assoc, List.append_assoc] at hh
        rw [List.append_assoc, List.append_assoc, hh]
      have := hmin (x :: bb) aa hd
      simpa using this
    rw [ih rfl hmin2]

theorem splitFirst_isSome {needle : List Char} (hne : needle ≠ []) :
    ∀ {b a s : List Char}, s = b ++ needle ++ a → (splitFirst needle s).isSome = true := by
  intro b
  induction b with
  | nil =>
    intro a s hs
    subst hs
    obtain ⟨c, nr, hcn⟩ : ∃ c nr, needle = c :: nr := by
      cases needle with
      | nil => exact absurd rfl hne
      | cons c nr => exact ⟨c, nr, rfl⟩
    have hpre : needle.isPrefixOf (needle ++ a) = true :=
      List.isPrefixOf_iff_prefix.mpr (List.prefix_append needle a)
    subst hcn
    rw [List.nil_append, List.cons_append, splitFirst, if_pos (by simp [hpre] )]
    rfl
  | cons x b ih =>
    intro a s hs
    subst hs
    have hshape : (x :: b) ++ needle ++ a = x :: (b ++ needle ++ a) := by simp
    rw [hshape, splitFirst]
    by_cases hp : needle.isPrefixOf (x :: (b ++ needle ++ a)) = true
    · rw [if_pos hp]; rfl
    · rw [if_neg hp]
      have := ih (a := a) (s := b ++ needle ++ a) rfl
      cases hsf : splitFirst needle (b ++ needle ++ a) with
      | none => rw [hsf] at this; simp at this
      | some pr => cases pr; rfl

theorem splitFirst_none {needle : List Char} (hne : needle ≠ []) {s : List Char}
    (h : splitFirst needle s = none) : ∀ b a, s ≠ b ++ needle ++ a := by
  intro b a hs
  have := splitFirst_isSome hne hs
  rw [h] at this
  simp at this

/-! ### takeWhile / dropWhile decomposition helpers -/

theorem takeWhile_middle {α : Type} {p : α → Bool} :
    ∀ (l1 : List α) (c : α) (l2 : List α), (∀ x ∈ l1, p x = true) → p c = false →
      (l1 ++ c :: l2).takeWhile p = l1 := by
  intro l1
  induction l1 with
  | nil => intro c l2 _ hc; simp [List.takeWhile_cons, hc]
  | cons x xs ih =>
    intro c l2 h1 hc
    have hx : p x = true := h1 x (by simp)
    simp [List.cons_append, List.takeWhile_cons, hx,
      ih c l2 (fun y hy => h1 y (by simp [hy])) hc]

theorem dropWhile_middle {α : Type} {p : α → Bool} :
    ∀ (l1 : List α) (c : α) (l2 : List α), (∀ x ∈ l1, p x = true) → p c = false →
      (l1 ++ c :: l2).dropWhile p = c :: l2 := by
  intro l1
  induction l1 with
  | nil => intro c l2 _ hc; simp [List.dropWhile_cons, hc]
  | cons x xs ih =>
    intro c l2 h1 hc
    have hx : p x = true := h1 x (by simp)
    simp [List.cons_append, List.dropWhile_cons, hx,
      ih c l2 (fun y hy => h1 y (by simp [hy])) hc]

/-! ### JS string primitives

Modelled over `String.data`.  `replaceOnce` models JS
`String.prototype.replace` with a string pattern or a non-global regex
matching a literal (first occurrence only), splicing the replacement
literally.  The source uses it in this literal form only for the
`{filename}` substitution in the comment template, where the
replacement is a relative path and the `$`-escape processing JS would
apply is not modelled (no claim constrains comments for paths
containing `$`).  The `</template>` fallback of the default splice,
whose replacement string embeds arbitrary comment and script text, has
its `$`-escape processing modelled explicitly (`dollarSubst` below).
-/

def jsStartsWith (s pat : String) : Bool := pat.data.isPrefixOf s.data

def jsEndsWith (s pat : String) : Bool := pat.data.isSuffixOf s.data

def containsSubstr (s sub : String) : Bool := (splitFirst sub.data s.data).isSome

def strLen (s : String) : Nat := s.data.length

def replaceOnce (s pat repl : String) : String :=
  match splitFirst pat.data s.data with
  | some (b, a) => String.mk (b ++ repl.data ++ a)
  | none => s

/-! ### Node `path` model (POSIX, pre-normalised inputs)

`joinPath` does not re-normalise `.`/`..` segments and `basenameOf` does
not trim trailing slashes: the plugin only ever joins clean directory
paths with clean file names, which these functions model faithfully.
-/

def basenameOf (p : String) : String :=
  String.mk ((p.data.reverse.takeWhile (fun c => c != '/')).reverse)

def dirname (p : String) : String :=
  match p.data.reverse.dropWhile (fun c => c != '/') with
  | [] => "."
  | [_] => "/"
  | _ :: rest => String.mk rest.reverse

/-- Model of `path.basename(p, ext)`: the base name with a trailing `ext`
removed, unless the base name is exactly `ext`. -/
def basenameStrip (p ext : String) : String :=
  let b := basenameOf p
  if strLen ext < strLen b ∧ jsEndsWith b ext = true then
    String.mk (b.data.take (b.data.length - ext.data.length))
  else b

/-- Model of `path.extname`: from the last dot of the base name (if the dot is
not the first character) to the end. -/
def extnameOf (p : String) : String :=
  let l := (basenameOf p).data
  let revTail := l.reverse.takeWhile (fun c => c != '.')
  if revTail.length ≥ l.length then ""
  else if revTail.length + 1 = l.length then ""
  else String.mk ('.' :: revTail.reverse)

def joinPath (a b : String) : String :=
  if a = "" then b
  else if b = "" then a
  else if jsEndsWith a "/" = true then a ++ b
  else a ++ "/" ++ b

def isAbsolute (p : String) : Bool := jsStartsWith p "/"

def splitSlash : List Char → List (List Char)
  | [] => [[]]
  | c :: rest =>
    if c = '/' then [] :: splitSlash rest
    else
      match splitSlash rest with
      | s :: ss => (c :: s) :: ss
      | [] => [[c]]

def joinSlash : List (List Char) → List Char
  | [] => []
  | [s] => s
  | s :: ss => s ++ '/' :: joinSlash ss

def dropCommon : List (List Char) → List (List Char) → List (List Char) × List (List Char)
  | a :: as2, b :: bs => if a = b then dropCommon as2 bs else (a :: as2, b :: bs)
  | as2, bs => (as2, bs)

/-- Model of `path.relative(base, target)` for comparable pre-normalised paths:
drop the common segment run, map what is left of `base` to `..`. -/
def relativePath (base target : String) : String :=
  let pr := dropCommon (splitSlash base.data) (splitSlash target.data)
  String.mk (joinSlash (pr.1.map (fun _ => "..".data) ++ pr.2))

/-! ### The default transform's regex patterns

`/<script\s+setup[^>]*>/` and
`/(<script\s+setup[^>]*>)([\s\S]*?)(<\/script>)/` from the source.
`isJsSpace` models `\s` for the ASCII whitespace class (the Unicode
extras of JS `\s` never appear in the claims).  Both quantifiers in the
open tag are deterministic once the match start is fixed: `\s+` must
take the maximal whitespace run (`setup` starts with a non-space), and
`[^>]*>` must stop at the first `>`.  The lazy `([\s\S]*?)` takes the
first `</script>` after the open tag, and the leftmost full match
starts at the first open-tag occurrence.
-/

def isJsSpace (c : Char) : Bool :=
  c == ' ' || c == '\t' || c == '\n' || c == '\r' || c == '\x0b' || c == '\x0c'

def openTagHead : List Char := "<script".data

def setupLit : List Char := "setup".data

def closeScriptLit : List Char := "</script>".data

def closeTemplateLit : List Char := "</template>".data

/-- Consume `[^>]*>` and return `(attrs, rest)`.  When
`dropWhile (fun c => c != '>')` is nonempty its head is necessarily `'>'`,
so dropping that head consumes the closing `>` of the tag. -/
def afterSetup (s3 : List Char) : Option (List Char × List Char) :=
  match s3.dropWhile (fun c => c != '>') with
  | [] => none
  | _ :: rest => some (s3.takeWhile (fun c => c != '>'), rest)

/-- Consume `\s+setup[^>]*>` and return `(ws, attrs, rest)`. -/
def afterHead (s1 : List Char) : Option (List Char × List Char × List Char) :=
  if s1.takeWhile isJsSpace = [] then none
  else if setupLit.isPrefixOf (s1.dropWhile isJsSpace) then
    match afterSetup ((s1.dropWhile isJsSpace).drop setupLit.length) with
    | some (attrs, rest) => some (s1.takeWhile isJsSpace, attrs, rest)
    | none => none
  else none

/-- Match `<script\s+setup[^>]*>` at the start of `s`; returns the
matched tag text and the remainder. -/
def matchOpenTagAt (s : List Char) : Option (List Char × List Char) :=
  if openTagHead.isPrefixOf s then
    match afterHead (s.drop openTagHead.length) with
    | some (ws, attrs, rest) => some (openTagHead ++ ws ++ setupLit ++ attrs ++ ['>'], rest)
    | none => none
  else none

/-- Leftmost match of the open-tag pattern: returns
`(text before the match, matched tag, remainder)`. -/
def findOpenTag : List Char → Option (List Char × List Char × List Char)
  | [] => none
  | c :: rest =>
    match matchOpenTagAt (c :: rest) with
    | some (tag, r) => some ([], tag, r)
    | none =>
      match findOpenTag rest with
      | some (p, tag, r) => some (c :: p, tag, r)
      | none => none

/-- JS `GetSubstitution` for a *string* replacement argument of
`String.prototype.replace`, specialised to a regex with no capture
groups (the fallback branch's `/<\/template>/`): in the replacement
text, `$$` becomes `$`, `$&` the matched text, `` $` `` (dollar +
backquote, `'\x60'`) the subject text before the match, `$'` (dollar +
quote, `'\x27'`) the subject text after the match; a `$` followed by
anything else — including digits and `<`, since the regex has no
(named) capture groups — stays literal, and scanning resumes at the
following character.  (In the final branch the follower `d` is none of
the four escape heads, in particular not `$`, so emitting it directly
and continuing after it is the same as resuming the scan at it.) -/
def dollarSubst (matched before after : List Char) : List Char → List Char
  | [] => []
  | c :: rest =>
    if c = '$' then
      match rest with
      | [] => [c]
      | d :: rest2 =>
        if d = '$' then '$' :: dollarSubst matched before after rest2
        else if d = '&' then matched ++ dollarSubst matched before after rest2
        else if d = '\x60' then before ++ dollarSubst matched before after rest2
        else if d = '\x27' then after ++ dollarSubst matched before after rest2
        else c :: d :: dollarSubst matched before after rest2
    else c :: dollarSubst matched before after rest

/-- The default splice of `transform` (src/index.js lines 233-246):
if the open-tag pattern occurs, replace the first full
`<script setup ...> ... </script>` block, keeping the original inner
content after the injected comment and script — this branch uses a
replacer *function*, whose return value JS inserts verbatim.
Otherwise replace the first `</template>` with itself followed by a
brand-new block; this branch passes a replacement *string*, so JS
applies `$`-escape substitution (`dollarSubst`) to it.  A `replace`
whose pattern does not match returns the string unchanged. -/
def defaultSplice (comment scriptContent code : String) : String :=
  match findOpenTag code.data with
  | some (pre0, tag, rest) =>
    match splitFirst closeScriptLit rest with
    | some (content, after) =>
      String.mk (pre0 ++ tag ++ '\n' :: comment.data ++ '\n' :: scriptContent.data
        ++ '\n' :: content ++ closeScriptLit ++ after)
    | none => code
  | none =>
    match splitFirst closeTemplateLit code.data with
    | some (b, a) =>
      String.mk (b ++ dollarSubst closeTemplateLit b a
        (closeTemplateLit ++ "\n\n<script setup>\n".data ++ comment.data
          ++ '\n' :: scriptContent.data ++ "\n</script>".data) ++ a)
    | none => code

/-! ### Filesystem model

Every filesystem call the plugin makes (`fs.existsSync`,
`fs.readdirSync`, `fs.readFileSync`) is recorded in a trace of `FsOp`
values.  `FsOp.write` classifies the mutating Node calls
(`writeFileSync`, `copyFileSync`, `mkdirSync`, ...); the plugin source
contains none, so no embedded function ever emits it — which is exactly
the frame property claimed of the plugin.
-/

inductive EntryKind
  | dir
  | file
  | other
deriving DecidableEq

/-- One `fs.Dirent` from `readdirSync(dir, { withFileTypes: true })`. -/
structure Dirent where
  name : String
  kind : EntryKind
deriving DecidableEq

inductive FsOp
  | existsSync (p : String)
  | readdirSync (p : String)
  | readFileSync (p : String)
  | write (p : String)
deriving DecidableEq

def FsOp.isWrite : FsOp → Bool
  | .write _ => true
  | _ => false

/-- The ambient filesystem state.  `readdirSync`/`readFileSync` model a
thrown exception as `.error`. -/
structure Fs where
  existsSync : String → Bool
  readdirSync : String → Except String (List Dirent)
  readFileSync : String → Except String String

/-! ### Configuration and cache -/

/-- The merged plugin configuration (`{...defaultOptions, ...options}`,
src/index.js lines 27-39).  `resolveScriptPath` and `transform` are the
optional user override hooks; the built-in resolver is used exactly when
`resolveScriptPath` is absent.  The `debug` flag only gates console
logging, which has no observable effect in this model. -/
structure MergerConfig where
  scriptPaths : List String := ["views", "scripts", "components"]
  extensions : List String := [".script.js", ".js"]
  aliases : List (String × String) := []
  debug : Bool := false
  rootDir : String := "/cwd"
  srcDir : String := "src"
  injectComment : String := "// {filename}"
  useSameDir : Bool := true
  resolveScriptPath : Option (String → Option String) := none
  transform : Option (String → String → String → String → String → Option String) := none

/-- The `scriptCache`: a JS `Map` from component path to resolved script
path or `null`, modelled as an association list (the code only ever
inserts a key it has just checked to be absent). -/
abbrev ScriptCache := List (String × Option String)

def cacheHas (c : ScriptCache) (k : String) : Bool := (c.lookup k).isSome

def cacheSet (c : ScriptCache) (k : String) (v : Option String) : ScriptCache := (k, v) :: c

/-! ### The built-in path resolver (`createPathResolver`) -/

/-- Model of `resolveAlias` (src/index.js lines 54-61): the first alias whose key
is a prefix of the path rewrites that prefix (JS
`filepath.replace(alias, target)`; under the `startsWith` guard the
first occurrence is the prefix). -/
def resolveAlias (aliases : List (String × String)) (filepath : String) : String :=
  match aliases.find? (fun pr => jsStartsWith filepath pr.1) with
  | some pr => pr.2 ++ String.mk (filepath.data.drop pr.1.data.length)
  | none => filepath

/-- The body of the `for (const entry of entries)` loop of
`findMatchingFiles`; `recur` is the recursive call for subdirectories
(one fuel level down). -/
def goEntries (recur : String → List String → List String × List FsOp)
    (exts : List String) (dir : String) :
    List Dirent → List String → List String × List FsOp
  | [], results => (results, [])
  | e :: es, results =>
    match e.kind with
    | EntryKind.dir =>
      let r1 := recur (joinPath dir e.name) results
      let r2 := goEntries recur exts dir es r1.1
      (r2.1, r1.2 ++ r2.2)
    | EntryKind.file =>
      if exts.any (fun ext => jsEndsWith e.name ext) then
        goEntries recur exts dir es (results ++ [joinPath dir e.name])
      else
        goEntries recur exts dir es results
    | EntryKind.other => goEntries recur exts dir es results

/-- Model of `findMatchingFiles` (src/index.js lines 140-161): depth-first
recursive enumeration, in `readdirSync` order, of all files under `dir`
whose name ends with one of the extensions.  A missing directory
returns `results` unchanged; a `readdirSync` failure is caught and
logged.  `fuel` bounds the modelled recursion depth. -/
def findMatchingFiles (fs : Fs) : Nat → String → List String → List String →
    List String × List FsOp
  | 0, _, _, results => (results, [])
  | fuel + 1, dir, exts, results =>
    if fs.existsSync dir then
      match fs.readdirSync dir with
      | Except.ok entries =>
        let r := goEntries (fun d res => findMatchingFiles fs fuel d exts res) exts dir
          entries results
        (r.1, FsOp.existsSync dir :: FsOp.readdirSync dir :: r.2)
      | Except.error _ => (results, [FsOp.existsSync dir, FsOp.readdirSync dir])
    else (results, [FsOp.existsSync dir])

/-- The match test of the resolver's inner loop (src/index.js lines
110-115). -/
def matchesVue (vueBaseName file : String) : Bool :=
  basenameStrip file (extnameOf file) == vueBaseName
    || jsStartsWith (basenameOf file) (vueBaseName ++ ".")
    || containsSubstr file ("/" ++ vueBaseName ++ "/index")
    || containsSubstr file ("\\" ++ vueBaseName ++ "\\index")

/-- Step 1 of the resolver (src/index.js lines 73-83): same-directory
candidates `<vueDir>/<vueBaseName><ext>`, extensions in configured
order, first existing file wins. -/
def trySameDir (fs : Fs) (vueDir vueBaseName : String) :
    List String → Option String × List FsOp
  | [] => (none, [])
  | ext :: rest =>
    if fs.existsSync (joinPath vueDir (vueBaseName ++ ext)) then
      (some (joinPath vueDir (vueBaseName ++ ext)),
        [FsOp.existsSync (joinPath vueDir (vueBaseName ++ ext))])
    else
      let r := trySameDir fs vueDir vueBaseName rest
      (r.1, FsOp.existsSync (joinPath vueDir (vueBaseName ++ ext)) :: r.2)

/-- Resolution of one configured `scriptPaths` entry to an absolute
search directory (src/index.js lines 87-98). -/
def searchDirFor (cfg : MergerConfig) (sp : String) : String :=
  resolveAlias cfg.aliases
    (if isAbsolute sp then sp
     else if jsStartsWith sp "./" || jsStartsWith sp "../" then joinPath cfg.rootDir sp
     else joinPath (joinPath cfg.rootDir cfg.srcDir) sp)

/-- Step 2 of the resolver (src/index.js lines 86-124): scan the
configured search directories in order; within one directory, return
the first enumerated matching file. -/
def searchScriptPaths (cfg : MergerConfig) (fuel : Nat) (fs : Fs) (vueBaseName : String) :
    List String → Option String × List FsOp
  | [] => (none, [])
  | sp :: rest =>
    if fs.existsSync (searchDirFor cfg sp) then
      let r1 := findMatchingFiles fs fuel (searchDirFor cfg sp) cfg.extensions []
      match r1.1.find? (fun file => matchesVue vueBaseName file) with
      | some file => (some file, FsOp.existsSync (searchDirFor cfg sp) :: r1.2)
      | none =>
        let r2 := searchScriptPaths cfg fuel fs vueBaseName rest
        (r2.1, FsOp.existsSync (searchDirFor cfg sp) :: (r1.2 ++ r2.2))
    else
      let r2 := searchScriptPaths cfg fuel fs vueBaseName rest
      (r2.1, FsOp.existsSync (searchDirFor cfg sp) :: r2.2)

structure ResolveOut where
  result : Option String
  cache : ScriptCache
  trace : List FsOp
deriving DecidableEq

/-- The uncached part of the resolver (src/index.js lines 69-127): the
same-directory fast path (when enabled), then the search-directory
scan. -/
def resolveFresh (cfg : MergerConfig) (fuel : Nat) (fs : Fs) (vueFilePath : String) :
    Option String × List FsOp :=
  let sd : Option String × List FsOp :=
    if cfg.useSameDir then
      trySameDir fs (dirname vueFilePath) (basenameStrip vueFilePath ".vue") cfg.extensions
    else (none, [])
  match sd.1 with
  | some p => (some p, sd.2)
  | none =>
    let r := searchScriptPaths cfg fuel fs (basenameStrip vueFilePath ".vue") cfg.scriptPaths
    (r.1, sd.2 ++ r.2)

/-- The built-in resolver closure returned by `createPathResolver`
(src/index.js lines 63-130): cached result if present; otherwise resolve
afresh, and cache the outcome — found path or `null` — before
returning. -/
def builtinResolve (cfg : MergerConfig) (fuel : Nat) (fs : Fs) (cache : ScriptCache)
    (vueFilePath : String) : ResolveOut :=
  if cacheHas cache vueFilePath then
    ⟨(cache.lookup vueFilePath).getD none, cache, []⟩
  else
    let r := resolveFresh cfg fuel fs vueFilePath
    ⟨r.1, cacheSet cache vueFilePath r.1, r.2⟩

/-! ### The transform hook -/

structure TransformOut where
  result : Option String
  cache : ScriptCache
  trace : List FsOp
deriving DecidableEq

/-- Selection `const resolveScriptPath = config.resolveScriptPath ||
createPathResolver(config)` (src/index.js line 42): the override, when
configured, is called directly and never touches the cache. -/
def resolveStep (cfg : MergerConfig) (fuel : Nat) (fs : Fs) (cache : ScriptCache)
    (id : String) : Option String × ScriptCache × List FsOp :=
  match cfg.resolveScriptPath with
  | some f => (f id, cache, [])
  | none =>
    let o := builtinResolve cfg fuel fs cache id
    (o.result, o.cache, o.trace)

/-- The part of the `transform` hook that runs once a script path is
resolved (src/index.js lines 219-246): read the script (a read failure
is caught by the surrounding `try` and yields `null`), build the
comment by substituting `{filename}` in the configured template with
the script path relative to the component's directory, then either call
the custom `transform` override or apply the default splice. -/
def transformFound (cfg : MergerConfig) (fs : Fs) (code id scriptPath : String) :
    Option String :=
  match fs.readFileSync scriptPath with
  | Except.error _ => none
  | Except.ok scriptContent =>
    match cfg.transform with
    | some tf =>
      tf code scriptContent
        (replaceOnce cfg.injectComment "{filename}" (relativePath (dirname id) scriptPath))
        id scriptPath
    | none =>
      some (defaultSplice
        (replaceOnce cfg.injectComment "{filename}" (relativePath (dirname id) scriptPath))
        scriptContent code)

/-- The `transform(code, id)` hook (src/index.js lines 210-251).  The
whole body after the `.vue` check runs inside `try { ... } catch { return
null }`; the only call that can throw in this model is `readFileSync`,
whose `.error` branch (inside `transformFound`) is the catch branch. -/
def transform (cfg : MergerConfig) (fuel : Nat) (fs : Fs) (cache : ScriptCache)
    (code id : String) : TransformOut :=
  if jsEndsWith id ".vue" then
    match resolveStep cfg fuel fs cache id with
    | (none, cacheA, t1) => ⟨none, cacheA, t1⟩
    | (some scriptPath, cacheA, t1) =>
      ⟨transformFound cfg fs code id scriptPath, cacheA, t1 ++ [FsOp.readFileSync scriptPath]⟩
  else ⟨none, cache, []⟩

/-! ### Correctness of the open-tag matcher

`IsOpenTag t` is the declarative reading of the pattern
`<script\s+setup[^>]*>`: the literal head, a nonempty whitespace run,
the literal `setup`, a run of non-`>` characters, a closing `>`.
`StartsOpenTag s` says the pattern matches at the start of `s`.
-/

def IsOpenTag (t : List Char) : Prop :=
  ∃ ws attrs, ws ≠ [] ∧ (∀ c ∈ ws, isJsSpace c = true) ∧ (∀ c ∈ attrs, (c != '>') = true) ∧
    t = openTagHead ++ ws ++ setupLit ++ attrs ++ ['>']

def StartsOpenTag (s : List Char) : Prop := ∃ t r, IsOpenTag t ∧ s = t ++ r

theorem isPrefixOf_self_append (l r : List Char) : l.isPrefixOf (l ++ r) = true :=
  List.isPrefixOf_iff_prefix.mpr (List.prefix_append l r)

theorem dropWhile_head_false {α : Type} {p : α → Bool} :
    ∀ {l rest : List α} {c : α}, l.dropWhile p = c :: rest → p c = false := by
  intro l
  induction l with
  | nil => intro rest c h; simp at h
  | cons x xs ih =>
    intro rest c h
    rw [List.dropWhile_cons] at h
    by_cases hx : p x = true
    · rw [if_pos hx] at h; exact ih h
    · rw [if_neg hx] at h
      injection h with h1 _
      subst h1
      simpa using hx

theorem afterSetup_of {attrs : List Char} (h : ∀ c ∈ attrs, (c != '>') = true)
    (r : List Char) : afterSetup (attrs ++ '>' :: r) = some (attrs, r) := by
  unfold afterSetup
  rw [dropWhile_middle attrs '>' r h (by decide), takeWhile_middle attrs '>' r h (by decide)]

theorem afterSetup_sound {s3 attrs r : List Char} (h : afterSetup s3 = some (attrs, r)) :
    s3 = attrs ++ '>' :: r ∧ ∀ c ∈ attrs, (c != '>') = true := by
  unfold afterSetup at h
  cases hd : s3.dropWhile (fun c => c != '>') with
  | nil => rw [hd] at h; simp at h
  | cons c rest =>
    rw [hd] at h
    simp only [Option.some.injEq, Prod.mk.injEq] at h
    obtain ⟨ha, hr⟩ := h
    have hc := dropWhile_head_false hd
    have hc2 : c = '>' := by simpa using hc
    subst hc2
    subst hr
    constructor
    · conv_lhs => rw [← List.takeWhile_append_dropWhile (p := fun c => c != '>') (l := s3)]
      rw [hd, ha]
    · intro x hx
      rw [← ha] at hx
      exact List.mem_takeWhile_imp (p := fun c => c != '>') hx

theorem afterHead_of {ws attrs : List Char} (hne : ws ≠ [])
    (hws : ∀ c ∈ ws, isJsSpace c = true) (hattrs : ∀ c ∈ attrs, (c != '>') = true)
    (r : List Char) :
    afterHead (ws ++ setupLit ++ attrs ++ '>' :: r) = some (ws, attrs, r) := by
  have hsl : setupLit = 's' :: "etup".data := rfl
  have hshape : ws ++ setupLit ++ attrs ++ '>' :: r
      = ws ++ 's' :: ("etup".data ++ (attrs ++ '>' :: r)) := by
    rw [hsl]
    simp
  have htake : (ws ++ setupLit ++ attrs ++ '>' :: r).takeWhile isJsSpace = ws := by
    rw [hshape]
    exact takeWhile_middle ws 's' _ hws (by decide)
  have hdrop : (ws ++ setupLit ++ attrs ++ '>' :: r).dropWhile isJsSpace
      = setupLit ++ (attrs ++ '>' :: r) := by
    rw [hshape]
    exact dropWhile_middle ws 's' _ hws (by decide)
  unfold afterHead
  rw [htake, hdrop, if_neg hne, if_pos (isPrefixOf_self_append _ _), List.drop_left,
    afterSetup_of hattrs r]

theorem afterHead_sound {s1 ws attrs r : List Char} (h : afterHead s1 = some (ws, attrs, r)) :
    s1 = ws ++ setupLit ++ attrs ++ '>' :: r ∧ ws ≠ [] ∧ (∀ c ∈ ws, isJsSpace c = true) ∧
      ∀ c ∈ attrs, (c != '>') = true := by
  unfold afterHead at h
  by_cases h0 : s1.takeWhile isJsSpace = []
  · rw [if_pos h0] at h; simp at h
  · rw [if_neg h0] at h
    by_cases hp : setupLit.isPrefixOf (s1.dropWhile isJsSpace) = true
    · rw [if_pos hp] at h
      cases has : afterSetup ((s1.dropWhile isJsSpace).drop setupLit.length) with
      | none => rw [has] at h; simp at h
      | some pr =>
        obtain ⟨attrs0, r0⟩ := pr
        rw [has] at h
        simp only [Option.some.injEq, Prod.mk.injEq] at h
        obtain ⟨hws, hattrs0, hr0⟩ := h
        obtain ⟨hs3, hattrs⟩ := afterSetup_sound has
        obtain ⟨tail, htail⟩ := List.isPrefixOf_iff_prefix.mp hp
        have htail2 : (s1.dropWhile isJsSpace).drop setupLit.length = tail := by
          rw [← htail, List.drop_left]
        have htail3 : tail = attrs ++ '>' :: r := by
          rw [← htail2, hs3, hattrs0, hr0]
        refine ⟨?_, ?_, ?_, ?_⟩
        · conv_lhs => rw [← List.takeWhile_append_dropWhile (p := isJsSpace) (l := s1)]
          rw [hws, ← htail, htail3]
          simp
        · rw [← hws]; exact h0
        · intro x hx; rw [← hws] at hx; exact List.mem_takeWhile_imp hx
        · rw [← hattrs0]; exact hattrs
    · rw [if_neg hp] at h; simp at h

theorem matchOpenTagAt_of {t : List Char} (h : IsOpenTag t) (r : List Char) :
    matchOpenTagAt (t ++ r) = some (t, r) := by
  obtain ⟨ws, attrs, hne, hws, hattrs, ht⟩ := h
  subst ht
  have hshape : (openTagHead ++ ws ++ setupLit ++ attrs ++ ['>']) ++ r
      = openTagHead ++ (ws ++ setupLit ++ attrs ++ '>' :: r) := by simp
  rw [hshape]
  unfold matchOpenTagAt
  rw [if_pos (isPrefixOf_self_append _ _), List.drop_left, afterHead_of hne hws hattrs r]

theorem matchOpenTagAt_sound {s t r : List Char} (h : matchOpenTagAt s = some (t, r)) :
    IsOpenTag t ∧ s = t ++ r := by
  unfold matchOpenTagAt at h
  by_cases hp : openTagHead.isPrefixOf s = true
  · rw [if_pos hp] at h
    cases hah : afterHead (s.drop openTagHead.length) with
    | none => rw [hah] at h; simp at h
    | some tr =>
      obtain ⟨ws, attrs, r0⟩ := tr
      rw [hah] at h
      simp only [Option.some.injEq, Prod.mk.injEq] at h
      obtain ⟨ht, hr⟩ := h
      obtain ⟨hs1, hne, hws, hattrs⟩ := afterHead_sound hah
      obtain ⟨tail, htail⟩ := List.isPrefixOf_iff_prefix.mp hp
      have htail2 : s.drop openTagHead.length = tail := by
        rw [← htail, List.drop_left]
      constructor
      · exact ⟨ws, attrs, hne, hws, hattrs, ht.symm⟩
      · rw [← htail, ← htail2, hs1, ← ht, ← hr]
        simp
  · rw [if_neg hp] at h; simp at h

theorem findOpenTag_sound :
    ∀ {s p t r : List Char}, findOpenTag s = some (p, t, r) → s = p ++ t ++ r ∧ IsOpenTag t := by
  intro s
  induction s with
  | nil => intro p t r h; simp [findOpenTag] at h
  | cons c rest ih =>
    intro p t r h
    rw [findOpenTag] at h
    cases hm : matchOpenTagAt (c :: rest) with
    | some pr =>
      obtain ⟨t0, r0⟩ := pr
      rw [hm] at h
      simp only [Option.some.injEq, Prod.mk.injEq] at h
      obtain ⟨hp, ht, hr⟩ := h
      obtain ⟨hopen, hs⟩ := matchOpenTagAt_sound hm
      subst hp
      subst ht
      subst hr
      exact ⟨by simpa using hs, hopen⟩
    | none =>
      rw [hm] at h
      cases hf : findOpenTag rest with
      | none => rw [hf] at h; simp at h
      | some pr2 =>
        obtain ⟨p0, t0, r0⟩ := pr2
        rw [hf] at h
        simp only [Option.some.injEq, Prod.mk.injEq] at h
        obtain ⟨hp, ht, hr⟩ := h
        obtain ⟨hrest, hopen⟩ := ih hf
        subst hp
        subst ht
        subst hr
        refine ⟨?_, hopen⟩
        rw [hrest]
        simp

theorem findOpenTag_complete :
    ∀ (p : List Char) {t r : List Char}, IsOpenTag t →
      (∀ i, i < p.length → ¬ StartsOpenTag ((p ++ t ++ r).drop i)) →
      findOpenTag (p ++ t ++ r) = some (p, t, r) := by
  intro p
  induction p with
  | nil =>
    intro t r hopen _
    have hm := matchOpenTagAt_of hopen r
    obtain ⟨ws, attrs, hne, hws, hattrs, ht⟩ := hopen
    have hcons : t ++ r = '<' :: ("script".data ++ (ws ++ setupLit ++ attrs ++ '>' :: r)) := by
      rw [ht]
      show openTagHead ++ ws ++ setupLit ++ attrs ++ ['>'] ++ r
        = openTagHead ++ (ws ++ setupLit ++ attrs ++ '>' :: r)
      simp
    rw [List.nil_append, hcons]
    rw [hcons] at hm
    rw [findOpenTag, hm]
  | cons c p ih =>
    intro t r hopen hfirst
    have hshape : (c :: p) ++ t ++ r = c :: (p ++ t ++ r) := by simp
    have hm : matchOpenTagAt (c :: (p ++ t ++ r)) = none := by
      cases hmm : matchOpenTagAt (c :: (p ++ t ++ r)) with
      | none => rfl
      | some pr =>
        obtain ⟨t0, r0⟩ := pr
        obtain ⟨hopen0, hs0⟩ := matchOpenTagAt_sound hmm
        have hstart : StartsOpenTag (((c :: p) ++ t ++ r).drop 0) := by
          rw [List.drop_zero, hshape]
          exact ⟨t0, r0, hopen0, hs0⟩
        exact absurd hstart (hfirst 0 (by simp))
    have hfirst2 : ∀ i, i < p.length → ¬ StartsOpenTag ((p ++ t ++ r).drop i) := by
      intro i hi hst
      have : ((c :: p) ++ t ++ r).drop (i + 1) = (p ++ t ++ r).drop i := by
        rw [hshape]
        simp
      exact absurd (by rw [this]; exact hst) (hfirst (i + 1) (by simpa using hi))
    rw [hshape, findOpenTag, hm, ih hopen hfirst2]

theorem findOpenTag_none {s : List Char} (h : ∀ i, ¬ StartsOpenTag (s.drop i)) :
    findOpenTag s = none := by
  cases hf : findOpenTag s with
  | none => rfl
  | some pr =>
    obtain ⟨p, t, r⟩ := pr
    obtain ⟨hs, hopen⟩ := findOpenTag_sound hf
    have : StartsOpenTag (s.drop p.length) := by
      refine ⟨t, r, hopen, ?_⟩
      rw [hs, List.append_assoc, List.drop_left]
    exact absurd this (h p.length)

/-! ### Cache behaviour of the built-in resolver -/

theorem builtinResolve_cache_lookup (cfg : MergerConfig) (fuel : Nat) (fs : Fs)
    (cache : ScriptCache) (P : String) :
    ((builtinResolve cfg fuel fs cache P).cache).lookup P
      = some (builtinResolve cfg fuel fs cache P).result := by
  unfold builtinResolve
  by_cases hc : cacheHas cache P = true
  · rw [if_pos hc]
    unfold cacheHas at hc
    cases hl : cache.lookup P with
    | none => rw [hl] at hc; simp at hc
    | some v => simp [hl]
  · rw [if_neg hc]
    simp [cacheSet, List.lookup]

theorem builtinResolve_cache_hit (cfg : MergerConfig) (fuel : Nat) (fs : Fs)
    {cache : ScriptCache} {P : String} (h : cacheHas cache P = true) :
    builtinResolve cfg fuel fs cache P = ⟨(cache.lookup P).getD none, cache, []⟩ := by
  unfold builtinResolve
  rw [if_pos h]

/-- C1: once the built-in resolver has been called on a component path,
every later call on that path — under any filesystem state whatsoever,
so in particular after the matching file is created or the resolved file
is deleted — returns the identical result (found path or `null`) from
the cache, leaves the cache unchanged, and performs no filesystem
operation at all. -/
theorem claim_C1_resolver_cached_forever (cfg : MergerConfig) (fuel fuel2 : Nat)
    (fs fs2 : Fs) (cache : ScriptCache) (P : String) :
    (builtinResolve cfg fuel2 fs2 (builtinResolve cfg fuel fs cache P).cache P).result
        = (builtinResolve cfg fuel fs cache P).result
      ∧ (builtinResolve cfg fuel2 fs2 (builtinResolve cfg fuel fs cache P).cache P).cache
        = (builtinResolve cfg fuel fs cache P).cache
      ∧ (builtinResolve cfg fuel2 fs2 (builtinResolve cfg fuel fs cache P).cache P).trace
        = [] := by
  have hl := builtinResolve_cache_lookup cfg fuel fs cache P
  have hh : cacheHas (builtinResolve cfg fuel fs cache P).cache P = true := by
    unfold cacheHas
    rw [hl]
    rfl
  rw [builtinResolve_cache_hit cfg fuel2 fs2 hh, hl]
  simp

/-! ### Same-directory fast path (claim C5) -/

theorem jsEndsWith_append (a b : String) : jsEndsWith (a ++ b) b = true := by
  unfold jsEndsWith
  rw [String.data_append]
  exact List.isSuffixOf_iff_suffix.mpr (List.suffix_append a.data b.data)

theorem trySameDir_found (fs : Fs) (vueDir base : String) :
    ∀ (exts : List String) (ext0 : String),
      exts.find? (fun e => fs.existsSync (joinPath vueDir (base ++ e))) = some ext0 →
      trySameDir fs vueDir base exts
        = (some (joinPath vueDir (base ++ ext0)),
            ((exts.takeWhile (fun e => !fs.existsSync (joinPath vueDir (base ++ e)))) ++ [ext0]).map
              (fun e => FsOp.existsSync (joinPath vueDir (base ++ e)))) := by
  intro exts
  induction exts with
  | nil => intro e0 h; simp at h
  | cons e rest ih =>
    intro e0 h
    by_cases he : fs.existsSync (joinPath vueDir (base ++ e)) = true
    · rw [List.find?_cons_of_pos
        (p := fun e => fs.existsSync (joinPath vueDir (base ++ e))) rest he] at h
      injection h with h0
      subst h0
      unfold trySameDir
      rw [if_pos he, List.takeWhile_cons]
      simp [he]
    · rw [List.find?_cons_of_neg
        (p := fun e => fs.existsSync (joinPath vueDir (base ++ e))) rest he] at h
      unfold trySameDir
      rw [if_neg he, ih e0 h, List.takeWhile_cons]
      have heb : fs.existsSync (joinPath vueDir (base ++ e)) = false :=
        Bool.not_eq_true _ ▸ eq_false_of_ne_true he
      simp [heb]

/-- C5: with same-directory preference enabled, when some configured
extension suffix yields an existing same-directory candidate
`<dir>/<base><ext>` (extensions probed in configured order — `find?`),
a fresh resolution returns that candidate, and the whole filesystem
trace consists of the existence probes of the same-directory candidates
up to the hit: the configured search directories are never consulted,
whatever they contain. -/
theorem claim_C5_same_dir_preference (cfg : MergerConfig) (fuel : Nat) (fs : Fs)
    (cache : ScriptCache) (P ext0 : String)
    (hmiss : cacheHas cache P = false)
    (hsd : cfg.useSameDir = true)
    (hfind : cfg.extensions.find?
        (fun e => fs.existsSync (joinPath (dirname P) (basenameStrip P ".vue" ++ e)))
      = some ext0) :
    (builtinResolve cfg fuel fs cache P).result
        = some (joinPath (dirname P) (basenameStrip P ".vue" ++ ext0))
      ∧ (builtinResolve cfg fuel fs cache P).trace
        = ((cfg.extensions.takeWhile
              (fun e => !fs.existsSync (joinPath (dirname P) (basenameStrip P ".vue" ++ e))))
            ++ [ext0]).map
            (fun e => FsOp.existsSync (joinPath (dirname P) (basenameStrip P ".vue" ++ e))) := by
  have htsd := trySameDir_found fs (dirname P) (basenameStrip P ".vue") cfg.extensions ext0 hfind
  unfold builtinResolve
  rw [if_neg (by rw [hmiss]; simp)]
  unfold resolveFresh
  rw [if_pos hsd, htsd]
  simp

def fsC5 : Fs where
  existsSync := fun p => p = "/a/Foo.script.js" || p = "/s" || p = "/s/Foo.js"
  readdirSync := fun p =>
    if p = "/s" then Except.ok [⟨"Foo.js", EntryKind.file⟩] else Except.error "ENOENT"
  readFileSync := fun _ => Except.error "ENOENT"

def cfgC5 : MergerConfig := { scriptPaths := ["/s"], rootDir := "/r", useSameDir := true }

theorem claim_C5_witness :
    (builtinResolve cfgC5 1 fsC5 [] "/a/Foo.vue").result
        = some (joinPath (dirname "/a/Foo.vue") (basenameStrip "/a/Foo.vue" ".vue" ++ ".script.js"))
      ∧ (builtinResolve cfgC5 1 fsC5 [] "/a/Foo.vue").trace
        = ((cfgC5.extensions.takeWhile
              (fun e => !fsC5.existsSync
                (joinPath (dirname "/a/Foo.vue") (basenameStrip "/a/Foo.vue" ".vue" ++ e))))
            ++ [".script.js"]).map
            (fun e => FsOp.existsSync
              (joinPath (dirname "/a/Foo.vue") (basenameStrip "/a/Foo.vue" ".vue" ++ e))) :=
  claim_C5_same_dir_preference cfgC5 1 fsC5 [] "/a/Foo.vue" ".script.js"
    (by decide) rfl (by decide)

/-! ### Search-directory scan order (claim C2) -/

def fsC2 : Fs where
  existsSync := fun p => p = "/s" || p = "/s/Foo.js" || p = "/s/Foo.script.js"
  readdirSync := fun p =>
    if p = "/s" then
      Except.ok [⟨"Foo.js", EntryKind.file⟩, ⟨"Foo.script.js", EntryKind.file⟩]
    else Except.error "ENOENT"
  readFileSync := fun _ => Except.error "ENOENT"

def cfgC2 : MergerConfig :=
  { scriptPaths := ["/s"], extensions := [".script.js", ".js"], useSameDir := false,
    rootDir := "/r" }

/-- C2 counterexample: extensions are `['.script.js', '.js']` and the
search directory `/s` holds both `Foo.js` and `Foo.script.js` for the
component `Foo.vue`; the claim demands the `.script.js` file (earlier
suffix in the configured list), but the resolver returns `Foo.js` — the
first match in directory enumeration order.  Extension priority plays
no role in the search-directory scan. -/
theorem claim_C2_counterexample :
    (builtinResolve cfgC2 1 fsC2 [] "/a/Foo.vue").result = some "/s/Foo.js"
      ∧ (builtinResolve cfgC2 1 fsC2 [] "/a/Foo.vue").result ≠ some "/s/Foo.script.js" := by
  decide

/-- C2 as amended: in a search directory holding two candidate files
for the same component that differ only by suffix, a fresh resolution
returns the candidate that is *enumerated first* in the directory
listing, irrespective of where its suffix sits in the configured
extension list (extension order matters only for the same-directory
fast path, cf. the C5 theorem). -/
theorem claim_C2_amended_enumeration_order (cfg : MergerConfig) (fuel : Nat) (fs : Fs)
    (cache : ScriptCache) (P d n1 n2 s1 s2 : String)
    (hmiss : cacheHas cache P = false)
    (hsd : cfg.useSameDir = false)
    (hsp : cfg.scriptPaths = [d])
    (habs : searchDirFor cfg d = d)
    (hex : fs.existsSync d = true)
    (hrd : fs.readdirSync d = Except.ok [⟨n1, EntryKind.file⟩, ⟨n2, EntryKind.file⟩])
    (hn1 : n1 = basenameStrip P ".vue" ++ s1) (hs1 : s1 ∈ cfg.extensions)
    (hn2 : n2 = basenameStrip P ".vue" ++ s2) (hs2 : s2 ∈ cfg.extensions)
    (hm1 : matchesVue (basenameStrip P ".vue") (joinPath d n1) = true) :
    (builtinResolve cfg (fuel + 1) fs cache P).result = some (joinPath d n1) := by
  have he1 : cfg.extensions.any (fun ext => jsEndsWith n1 ext) = true := by
    rw [List.any_eq_true]
    exact ⟨s1, hs1, by rw [hn1]; exact jsEndsWith_append _ _⟩
  have he2 : cfg.extensions.any (fun ext => jsEndsWith n2 ext) = true := by
    rw [List.any_eq_true]
    exact ⟨s2, hs2, by rw [hn2]; exact jsEndsWith_append _ _⟩
  have hfm : (findMatchingFiles fs (fuel + 1) d cfg.extensions []).1
      = [joinPath d n1, joinPath d n2] := by
    unfold findMatchingFiles
    rw [if_pos hex, hrd]
    simp [goEntries, he1, he2]
  have hsearch : (searchScriptPaths cfg (fuel + 1) fs (basenameStrip P ".vue") [d]).1
      = some (joinPath d n1) := by
    unfold searchScriptPaths
    rw [habs]
    rw [if_pos hex]
    simp only [hfm]
    rw [List.find?_cons_of_pos _ hm1]
  unfold builtinResolve
  rw [if_neg (by rw [hmiss]; simp)]
  unfold resolveFresh
  rw [if_neg (by rw [hsd]; simp), hsp]
  simp [hsearch]

theorem claim_C2_amended_witness :
    (builtinResolve cfgC2 (0 + 1) fsC2 [] "/a/Foo.vue").result = some (joinPath "/s" "Foo.js") :=
  claim_C2_amended_enumeration_order cfgC2 0 fsC2 [] "/a/Foo.vue" "/s" "Foo.js" "Foo.script.js"
    ".js" ".script.js" (by decide) rfl rfl (by decide) (by decide) rfl
    (by decide) (by decide) (by decide) (by decide) (by decide)

/-! ### Error handling of the transform hook (claims C6, C7) -/

/-- C6: the transform hook is a total function (in this embedding it can
raise nothing by construction), and the one operation inside its
`try` block that can throw — the script-file read — degrades to `null`:
whenever resolution finds a script path but reading it fails, the
transform yields `null`, leaving the component file unmodified instead
of aborting the host build. -/
theorem claim_C6_read_failure_degrades_to_null (cfg : MergerConfig) (fuel : Nat) (fs : Fs)
    (cache : ScriptCache) (code id p e0 : String)
    (hvue : jsEndsWith id ".vue" = true)
    (hres : (resolveStep cfg fuel fs cache id).1 = some p)
    (hread : fs.readFileSync p = Except.error e0) :
    (transform cfg fuel fs cache code id).result = none := by
  unfold transform
  rw [if_pos hvue]
  rcases hrs : resolveStep cfg fuel fs cache id with ⟨r1, rc, rt⟩
  rw [hrs] at hres
  simp only at hres
  subst hres
  simp [transformFound, hread]

def fsC6 : Fs where
  existsSync := fun p => p = "/a/Foo.script.js"
  readdirSync := fun _ => Except.error "ENOENT"
  readFileSync := fun _ => Except.error "EACCES"

def cfgC6 : MergerConfig := { rootDir := "/r" }

theorem claim_C6_witness :
    (transform cfgC6 1 fsC6 [] "<template>x</template>" "/a/Foo.vue").result = none :=
  claim_C6_read_failure_degrades_to_null cfgC6 1 fsC6 [] "<template>x</template>"
    "/a/Foo.vue" "/a/Foo.script.js" "EACCES" (by decide) (by decide) rfl

/-- C7 counterexample: a component file (`id` ends in `.vue`) whose
script resolves successfully, yet the transform still returns `null`,
because reading the script file fails.  So "not a component file" and
"no script path found" are *not* the only null cases, refuting the
claim's "exactly". -/
theorem claim_C7_counterexample :
    jsEndsWith "/a/Foo.vue" ".vue" = true
      ∧ (resolveStep cfgC6 1 fsC6 [] "/a/Foo.vue").1 = some "/a/Foo.script.js"
      ∧ (transform cfgC6 1 fsC6 [] "x" "/a/Foo.vue").result = none := by
  decide

/-- C7 as amended: the transform returns `null` in the two no-work
cases — an input whose path is not a `.vue` file, and a component file
for which resolution finds no script path.  (They are not the *only*
null cases: a script read failure, or a custom transform returning
`null`, also yields `null`.) -/
theorem claim_C7_amended_null_on_no_work (cfg : MergerConfig) (fuel : Nat) (fs : Fs)
    (cache : ScriptCache) (code id : String) :
    (jsEndsWith id ".vue" = false → (transform cfg fuel fs cache code id).result = none)
      ∧ ((resolveStep cfg fuel fs cache id).1 = none →
          (transform cfg fuel fs cache code id).result = none) := by
  constructor
  · intro hnv
    unfold transform
    rw [if_neg (by rw [hnv]; simp)]
  · intro hres
    unfold transform
    by_cases hv : jsEndsWith id ".vue" = true
    · rw [if_pos hv]
      rcases hrs : resolveStep cfg fuel fs cache id with ⟨r1, rc, rt⟩
      rw [hrs] at hres
      simp only at hres
      subst hres
      simp
    · rw [if_neg hv]

theorem claim_C7_amended_witness :
    (transform cfgC6 1 fsC6 [] "x" "/a/readme.txt").result = none :=
  (claim_C7_amended_null_on_no_work cfgC6 1 fsC6 [] "x" "/a/readme.txt").1 (by decide)

/-! ### Custom resolver override bypasses the cache (claim C8) -/

/-- C8: when a custom `resolveScriptPath` override is configured, the
resolution cache is never written (the transform returns it unchanged)
and never read (the transform's result and filesystem trace are the
same whatever the incoming cache is): the override is consulted afresh
on every call, so the resolve-once-per-path guarantee belongs to the
built-in resolver only. -/
theorem claim_C8_override_bypasses_cache (cfg : MergerConfig) (fuel : Nat) (fs : Fs)
    (cache cacheB : ScriptCache) (code id : String) (f : String → Option String)
    (hf : cfg.resolveScriptPath = some f) :
    (transform cfg fuel fs cache code id).cache = cache
      ∧ (transform cfg fuel fs cache code id).result
        = (transform cfg fuel fs cacheB code id).result
      ∧ (transform cfg fuel fs cache code id).trace
        = (transform cfg fuel fs cacheB code id).trace := by
  have hrs : ∀ ca : ScriptCache, resolveStep cfg fuel fs ca id = (f id, ca, []) := by
    intro ca
    unfold resolveStep
    rw [hf]
  unfold transform
  rw [hrs cache, hrs cacheB]
  by_cases hv : jsEndsWith id ".vue" = true
  · simp only [hv]
    cases f id with
    | none => simp
    | some sp => simp
  · simp [hv]

def cfgC8 : MergerConfig :=
  { rootDir := "/r", resolveScriptPath := some (fun _ => some "/ext/logic.js") }

def fsC8 : Fs where
  existsSync := fun _ => false
  readdirSync := fun _ => Except.error "ENOENT"
  readFileSync := fun p => if p = "/ext/logic.js" then Except.ok "S" else Except.error "ENOENT"

theorem claim_C8_witness :
    (transform cfgC8 1 fsC8 [("/a/Foo.vue", some "/stale.js")] "<template></template>"
        "/a/Foo.vue").cache = [("/a/Foo.vue", some "/stale.js")]
      ∧ (transform cfgC8 1 fsC8 [("/a/Foo.vue", some "/stale.js")] "<template></template>"
          "/a/Foo.vue").result
        = (transform cfgC8 1 fsC8 [] "<template></template>" "/a/Foo.vue").result
      ∧ (transform cfgC8 1 fsC8 [("/a/Foo.vue", some "/stale.js")] "<template></template>"
          "/a/Foo.vue").trace
        = (transform cfgC8 1 fsC8 [] "<template></template>" "/a/Foo.vue").trace :=
  claim_C8_override_bypasses_cache cfgC8 1 fsC8 [("/a/Foo.vue", some "/stale.js")] []
    "<template></template>" "/a/Foo.vue" (fun _ => some "/ext/logic.js") rfl

/-! ### The default splice (claims C3, C4, C9) -/

theorem startsOpenTag_head {s : List Char} (h : StartsOpenTag s) :
    openTagHead.isPrefixOf s = true := by
  obtain ⟨t, r, hopen, hs⟩ := h
  obtain ⟨ws, attrs, _, _, _, ht⟩ := hopen
  subst hs
  subst ht
  simp only [List.append_assoc]
  exact isPrefixOf_self_append _ _

/-- C3: when the component source decomposes as `pre ++ tag ++ content
++ "</script>" ++ after` where `tag` is the first `<script setup ...>`
open tag (no open tag starts inside `pre`) and this `"</script>"` is
the first one after the tag, the default splice rewrites exactly that
block: open tag, newline, comment, newline, script content, newline,
the original inner content, close tag — and everything before and after
the block (in particular any later script blocks inside `after`) is
byte-for-byte untouched. -/
theorem claim_C3_splice_into_script_setup (comment script code : String)
    (pre0 tag content after : List Char)
    (hcode : code.data = pre0 ++ tag ++ (content ++ closeScriptLit ++ after))
    (htag : IsOpenTag tag)
    (hfirst : ∀ i, i < pre0.length → ¬ StartsOpenTag (code.data.drop i))
    (hmin : ∀ b a, content ++ closeScriptLit ++ after = b ++ closeScriptLit ++ a →
      content.length ≤ b.length) :
    defaultSplice comment script code
      = String.mk (pre0 ++ tag ++ '\n' :: comment.data ++ '\n' :: script.data
          ++ '\n' :: content ++ closeScriptLit ++ after) := by
  have h1 : findOpenTag code.data = some (pre0, tag, content ++ closeScriptLit ++ after) := by
    rw [hcode]
    exact findOpenTag_complete pre0 htag
      (by intro i hi; rw [← hcode]; exact hfirst i hi)
  have h2 : splitFirst closeScriptLit (content ++ closeScriptLit ++ after)
      = some (content, after) :=
    splitFirst_eq_some (by decide) rfl hmin
  unfold defaultSplice
  simp only [h1, h2]

theorem claim_C3_witness :
    defaultSplice "C" "S" "<script setup></script>t"
      = String.mk ([] ++ "<script setup>".data ++ '\n' :: "C".data ++ '\n' :: "S".data
          ++ '\n' :: [] ++ closeScriptLit ++ "t".data) :=
  claim_C3_splice_into_script_setup "C" "S" "<script setup></script>t"
    [] "<script setup>".data [] "t".data (by decide)
    ⟨[' '], [], by decide, by decide, by decide, by decide⟩
    (fun i hi => absurd hi (Nat.not_lt_zero i))
    (fun _ _ _ => Nat.zero_le _)

theorem dollarSubst_no_dollar (matched before after : List Char) :
    ∀ {l : List Char}, '$' ∉ l → dollarSubst matched before after l = l := by
  intro l
  induction l with
  | nil => intro _; rfl
  | cons c rest ih =>
    intro h
    have hc : ¬ c = '$' := fun he => h (by rw [he]; exact List.mem_cons_self _ _)
    have hr : '$' ∉ rest := fun hm => h (List.mem_cons_of_mem c hm)
    unfold dollarSubst
    rw [if_neg hc, ih hr]

/-- C4 counterexample: with comment `"C"` and script content `"$$"`,
splicing into the source `"</template>"` does *not* insert "the
original closing template tag, two newlines, open tag, newline,
comment, newline, script content, newline, close tag": the replacement
is a JS *string* argument, so its `$`-escapes are processed and the
inserted text carries `$` where the claim demands the script content
`$$` verbatim. -/
theorem claim_C4_counterexample :
    defaultSplice "C" "$$" "</template>"
        = String.mk ([] ++ closeTemplateLit ++ "\n\n<script setup>\n".data ++ "C".data
            ++ '\n' :: "$".data ++ "\n</script>".data ++ [])
      ∧ defaultSplice "C" "$$" "</template>"
        ≠ String.mk ([] ++ closeTemplateLit ++ "\n\n<script setup>\n".data ++ "C".data
            ++ '\n' :: "$$".data ++ "\n</script>".data ++ []) := by
  decide

/-- C4 as amended: when the component source contains no
`<script setup ...>` open tag anywhere and decomposes as
`before ++ "</template>" ++ after` at the *first* `"</template>"`, and
neither the comment nor the script content contains a `$` character,
the default splice replaces exactly that occurrence with: the closing
template tag, two newlines, a fresh `<script setup>` open tag, newline,
comment, newline, script content, newline, closing script tag — leaving
`before` and `after` (hence any later `</template>` occurrence)
untouched.  (Without the `$` proviso, JS processes the `$`-escape
sequences `$$`, `$&`, `` $` ``, `$'` of the replacement string, as the
counterexample shows.) -/
theorem claim_C4_insert_before_close_template (comment script code : String)
    (before0 after : List Char)
    (hcode : code.data = before0 ++ closeTemplateLit ++ after)
    (hno : ∀ i, ¬ StartsOpenTag (code.data.drop i))
    (hmin : ∀ b a, code.data = b ++ closeTemplateLit ++ a → before0.length ≤ b.length)
    (hcom : '$' ∉ comment.data) (hscr : '$' ∉ script.data) :
    defaultSplice comment script code
      = String.mk (before0 ++ (closeTemplateLit ++ "\n\n<script setup>\n".data ++ comment.data
          ++ '\n' :: script.data ++ "\n</script>".data) ++ after) := by
  have h1 : findOpenTag code.data = none := findOpenTag_none hno
  have h2 : splitFirst closeTemplateLit code.data = some (before0, after) := by
    rw [hcode]
    refine splitFirst_eq_some (by decide) rfl ?_
    intro bb aa hh
    exact hmin bb aa (by rw [hcode]; exact hh)
  have hnod : '$' ∉ (closeTemplateLit ++ "\n\n<script setup>\n".data ++ comment.data
      ++ '\n' :: script.data ++ "\n</script>".data) := by
    intro hm
    rcases List.mem_append.mp hm with hm | hm
    · rcases List.mem_append.mp hm with hm | hm
      · rcases List.mem_append.mp hm with hm | hm
        · rcases List.mem_append.mp hm with hm | hm
          · exact absurd hm (by decide)
          · exact absurd hm (by decide)
        · exact hcom hm
      · rcases List.mem_cons.mp hm with hm | hm
        · exact absurd hm (by decide)
        · exact hscr hm
    · exact absurd hm (by decide)
  unfold defaultSplice
  simp only [h1, h2, dollarSubst_no_dollar closeTemplateLit before0 after hnod]

theorem claim_C4_witness :
    defaultSplice "C" "S" "</template>"
      = String.mk ([] ++ (closeTemplateLit ++ "\n\n<script setup>\n".data ++ "C".data
          ++ '\n' :: "S".data ++ "\n</script>".data) ++ []) := by
  have hno : ∀ i, ¬ StartsOpenTag (("</template>" : String).data.drop i) := by
    intro i h
    have hpre := startsOpenTag_head h
    rcases Nat.lt_or_ge i 11 with hi | hi
    · interval_cases i <;> exact absurd hpre (by decide)
    · rw [List.drop_of_length_le (le_trans (by decide) hi)] at hpre
      exact absurd hpre (by decide)
  exact claim_C4_insert_before_close_template "C" "S" "</template>" [] [] (by decide) hno
    (fun _ _ _ => Nat.zero_le _) (by decide) (by decide)

theorem findOpenTag_none_sound :
    ∀ {s : List Char}, findOpenTag s = none → ∀ i, ¬ StartsOpenTag (s.drop i) := by
  intro s
  induction s with
  | nil =>
    intro _ i hst
    obtain ⟨t, r, hopen, hs⟩ := hst
    obtain ⟨ws, attrs, _, _, _, ht⟩ := hopen
    rw [List.drop_nil] at hs
    have hlen := congrArg List.length hs
    subst ht
    have h7 : openTagHead.length = 7 := by decide
    simp [List.length_append, h7] at hlen
    omega
  | cons c rest ih =>
    intro h i
    rw [findOpenTag] at h
    cases hm : matchOpenTagAt (c :: rest) with
    | some pr =>
      rw [hm] at h
      obtain ⟨a, b⟩ := pr
      simp at h
    | none =>
      rw [hm] at h
      cases hfr : findOpenTag rest with
      | some pr =>
        rw [hfr] at h
        obtain ⟨x, y, z⟩ := pr
        simp at h
      | none =>
        cases i with
        | zero =>
          intro hst
          rw [List.drop_zero] at hst
          obtain ⟨t, r, hopen, hs⟩ := hst
          have hmm := matchOpenTagAt_of hopen r
          rw [← hs, hm] at hmm
          simp at hmm
        | succ i2 =>
          rw [List.drop_succ_cons]
          exact ih hfr i2

/-- When the default splice's full pattern cannot complete — there is an
open tag but no `"</script>"` after any open tag, or there is neither an
open tag nor a `"</template>"` — the `replace` finds no match and the
code comes back unchanged. -/
theorem defaultSplice_degenerate (comment script code : String)
    (hdeg : ((∃ i, StartsOpenTag (code.data.drop i))
            ∧ ∀ pre1 tag rest, code.data = pre1 ++ tag ++ rest → IsOpenTag tag →
                ∀ b a, rest ≠ b ++ closeScriptLit ++ a)
          ∨ ((∀ i, ¬ StartsOpenTag (code.data.drop i))
            ∧ ∀ b a, code.data ≠ b ++ closeTemplateLit ++ a)) :
    defaultSplice comment script code = code := by
  rcases hdeg with ⟨⟨i, hst⟩, hnoclose⟩ | ⟨hno, hnotpl⟩
  · cases hf : findOpenTag code.data with
    | none => exact absurd hst (findOpenTag_none_sound hf i)
    | some pr =>
      obtain ⟨p1, tg, rest⟩ := pr
      obtain ⟨hs, hopen⟩ := findOpenTag_sound hf
      cases hsp : splitFirst closeScriptLit rest with
      | none =>
        unfold defaultSplice
        simp only [hf, hsp]
      | some pr2 =>
        obtain ⟨b, a⟩ := pr2
        exact absurd (splitFirst_sound hsp) (hnoclose p1 tg rest hs hopen b a)
  · cases hsp : splitFirst closeTemplateLit code.data with
    | none =>
      unfold defaultSplice
      simp only [findOpenTag_none hno, hsp]
    | some pr =>
      obtain ⟨b, a⟩ := pr
      exact absurd (splitFirst_sound hsp) (hnotpl b a)

/-- C9: on a component file whose script resolves and reads fine but
whose source defeats the default splice's pattern — it has a
`<script setup ...>` open tag with no `"</script>"` after any such tag,
or it has neither an open tag nor a `"</template>"` — the transform
returns the source text unchanged (`some code`, a string equal to its
input), not `null`. -/
theorem claim_C9_no_match_returns_input (cfg : MergerConfig) (fuel : Nat) (fs : Fs)
    (cache : ScriptCache) (code id p content0 : String)
    (hvue : jsEndsWith id ".vue" = true)
    (hres : (resolveStep cfg fuel fs cache id).1 = some p)
    (hread : fs.readFileSync p = Except.ok content0)
    (htf : cfg.transform = none)
    (hdeg : ((∃ i, StartsOpenTag (code.data.drop i))
            ∧ ∀ pre1 tag rest, code.data = pre1 ++ tag ++ rest → IsOpenTag tag →
                ∀ b a, rest ≠ b ++ closeScriptLit ++ a)
          ∨ ((∀ i, ¬ StartsOpenTag (code.data.drop i))
            ∧ ∀ b a, code.data ≠ b ++ closeTemplateLit ++ a)) :
    (transform cfg fuel fs cache code id).result = some code := by
  unfold transform
  rw [if_pos hvue]
  rcases hrs : resolveStep cfg fuel fs cache id with ⟨r1, rc, rt⟩
  rw [hrs] at hres
  simp only at hres
  subst hres
  have hds := defaultSplice_degenerate
    (replaceOnce cfg.injectComment "{filename}" (relativePath (dirname id) p)) content0
    code hdeg
  simp [transformFound, hread, htf, hds]

def cfgC9 : MergerConfig :=
  { rootDir := "/r", resolveScriptPath := some (fun _ => some "/x.js") }

def fsC9 : Fs where
  existsSync := fun _ => false
  readdirSync := fun _ => Except.error "ENOENT"
  readFileSync := fun p => if p = "/x.js" then Except.ok "S" else Except.error "ENOENT"

theorem claim_C9_witness :
    (transform cfgC9 1 fsC9 [] "hello" "/a/F.vue").result = some "hello" := by
  refine claim_C9_no_match_returns_input cfgC9 1 fsC9 [] "hello" "/a/F.vue" "/x.js" "S"
    (by decide) (by decide) rfl rfl (Or.inr ⟨?_, ?_⟩)
  · intro i h
    have hpre := startsOpenTag_head h
    rcases Nat.lt_or_ge i 5 with hi | hi
    · interval_cases i <;> exact absurd hpre (by decide)
    · rw [List.drop_of_length_le (le_trans (by decide) hi)] at hpre
      exact absurd hpre (by decide)
  · intro b a hcontra
    have hlen := congrArg List.length hcontra
    rw [List.length_append, List.length_append] at hlen
    have h5 : ("hello" : String).data.length = 5 := by decide
    have h11 : closeTemplateLit.length = 11 := by decide
    rw [h5, h11] at hlen
    omega

/-! ### Frame property: the plugin only reads the filesystem (claim C10) -/

theorem trySameDir_trace_reads (fs : Fs) (vueDir base : String) :
    ∀ (exts : List String) (op : FsOp), op ∈ (trySameDir fs vueDir base exts).2 →
      FsOp.isWrite op = false := by
  intro exts
  induction exts with
  | nil => intro op h; simp [trySameDir] at h
  | cons e rest ih =>
    intro op h
    unfold trySameDir at h
    by_cases he : fs.existsSync (joinPath vueDir (base ++ e)) = true
    · rw [if_pos he] at h
      simp at h
      subst h
      rfl
    · rw [if_neg he] at h
      simp at h
      rcases h with h | h
      · subst h; rfl
      · exact ih op h

theorem goEntries_trace_reads
    (recur : String → List String → List String × List FsOp) (exts : List String) (dir : String)
    (hrec : ∀ d res op, op ∈ (recur d res).2 → FsOp.isWrite op = false) :
    ∀ (entries : List Dirent) (results : List String) (op : FsOp),
      op ∈ (goEntries recur exts dir entries results).2 → FsOp.isWrite op = false := by
  intro entries
  induction entries with
  | nil => intro results op h; simp [goEntries] at h
  | cons e es ih =>
    intro results op h
    unfold goEntries at h
    cases hk : e.kind with
    | dir =>
      rw [hk] at h
      simp at h
      rcases h with h | h
      · exact hrec _ _ op h
      · exact ih _ op h
    | file =>
      rw [hk] at h
      by_cases hf : exts.any (fun ext => jsEndsWith e.name ext) = true
      · rw [if_pos hf] at h
        exact ih _ op h
      · rw [if_neg hf] at h
        exact ih _ op h
    | other =>
      rw [hk] at h
      exact ih _ op h

theorem findMatchingFiles_trace_reads (fs : Fs) :
    ∀ (fuel : Nat) (dir : String) (exts : List String) (results : List String) (op : FsOp),
      op ∈ (findMatchingFiles fs fuel dir exts results).2 → FsOp.isWrite op = false := by
  intro fuel
  induction fuel with
  | zero => intro dir exts results op h; simp [findMatchingFiles] at h
  | succ n ih =>
    intro dir exts results op h
    unfold findMatchingFiles at h
    by_cases he : fs.existsSync dir = true
    · rw [if_pos he] at h
      cases hrd : fs.readdirSync dir with
      | ok entries =>
        rw [hrd] at h
        simp at h
        rcases h with h | h | h
        · subst h; rfl
        · subst h; rfl
        · exact goEntries_trace_reads _ exts dir
            (fun d res op2 hop => ih d exts res op2 hop) entries results op h
      | error e =>
        rw [hrd] at h
        simp at h
        rcases h with h | h <;> (subst h; rfl)
    · rw [if_neg he] at h
      simp at h
      subst h
      rfl

theorem searchScriptPaths_trace_reads (cfg : MergerConfig) (fuel : Nat) (fs : Fs)
    (base : String) :
    ∀ (sps : List String) (op : FsOp),
      op ∈ (searchScriptPaths cfg fuel fs base sps).2 → FsOp.isWrite op = false := by
  intro sps
  induction sps with
  | nil => intro op h; simp [searchScriptPaths] at h
  | cons sp rest ih =>
    intro op h
    unfold searchScriptPaths at h
    by_cases he : fs.existsSync (searchDirFor cfg sp) = true
    · rw [if_pos he] at h
      simp at h
      cases hfd : (findMatchingFiles fs fuel (searchDirFor cfg sp) cfg.extensions []).1.find?
          (fun file => matchesVue base file) with
      | some file =>
        rw [hfd] at h
        simp at h
        rcases h with h | h
        · subst h; rfl
        · exact findMatchingFiles_trace_reads fs fuel _ cfg.extensions [] op h
      | none =>
        rw [hfd] at h
        simp at h
        rcases h with h | h | h
        · subst h; rfl
        · exact findMatchingFiles_trace_reads fs fuel _ cfg.extensions [] op h
        · exact ih op h
    · rw [if_neg he] at h
      simp at h
      rcases h with h | h
      · subst h; rfl
      · exact ih op h

theorem resolveFresh_trace_reads (cfg : MergerConfig) (fuel : Nat) (fs : Fs) (P : String) :
    ∀ op, op ∈ (resolveFresh cfg fuel fs P).2 → FsOp.isWrite op = false := by
  intro op h
  unfold resolveFresh at h
  by_cases hu : cfg.useSameDir = true
  · rw [if_pos hu] at h
    rcases htd : trySameDir fs (dirname P) (basenameStrip P ".vue") cfg.extensions
      with ⟨td1, td2⟩
    rw [htd] at h
    cases td1 with
    | some p =>
      simp at h
      exact trySameDir_trace_reads fs _ _ cfg.extensions op (by rw [htd]; simpa using h)
    | none =>
      simp at h
      rcases h with h | h
      · exact trySameDir_trace_reads fs _ _ cfg.extensions op (by rw [htd]; simpa using h)
      · exact searchScriptPaths_trace_reads cfg fuel fs _ cfg.scriptPaths op h
  · rw [if_neg hu] at h
    simp at h
    exact searchScriptPaths_trace_reads cfg fuel fs _ cfg.scriptPaths op h

theorem builtinResolve_trace_reads (cfg : MergerConfig) (fuel : Nat) (fs : Fs)
    (cache : ScriptCache) (P : String) :
    ∀ op, op ∈ (builtinResolve cfg fuel fs cache P).trace → FsOp.isWrite op = false := by
  intro op h
  unfold builtinResolve at h
  by_cases hc : cacheHas cache P = true
  · rw [if_pos hc] at h
    simp at h
  · rw [if_neg hc] at h
    simp at h
    exact resolveFresh_trace_reads cfg fuel fs P op h

theorem resolveStep_trace_reads (cfg : MergerConfig) (fuel : Nat) (fs : Fs)
    (cache : ScriptCache) (id : String) :
    ∀ op, op ∈ (resolveStep cfg fuel fs cache id).2.2 → FsOp.isWrite op = false := by
  intro op h
  unfold resolveStep at h
  cases ho : cfg.resolveScriptPath with
  | some f =>
    rw [ho] at h
    simp at h
  | none =>
    rw [ho] at h
    simp at h
    exact builtinResolve_trace_reads cfg fuel fs cache id op h

/-- C10: no run of the resolver or of the transform hook ever performs
a mutating filesystem operation: every operation in the recorded trace
is an existence probe, a directory read, or a file read — never a
write.  (Sequences of invocations thread only the cache between calls,
so the per-invocation statement covers them.) -/
theorem claim_C10_never_writes (cfg : MergerConfig) (fuel : Nat) (fs : Fs)
    (cache : ScriptCache) (code id P : String) (op : FsOp) :
    (op ∈ (builtinResolve cfg fuel fs cache P).trace → FsOp.isWrite op = false)
      ∧ (op ∈ (transform cfg fuel fs cache code id).trace → FsOp.isWrite op = false) := by
  constructor
  · exact builtinResolve_trace_reads cfg fuel fs cache P op
  · intro h
    unfold transform at h
    by_cases hv : jsEndsWith id ".vue" = true
    · rw [if_pos hv] at h
      rcases hrs : resolveStep cfg fuel fs cache id with ⟨r1, rc, rt⟩
      rw [hrs] at h
      have hrt : ∀ op2, op2 ∈ rt → FsOp.isWrite op2 = false := by
        intro op2 hop
        exact resolveStep_trace_reads cfg fuel fs cache id op2 (by rw [hrs]; exact hop)
      cases r1 with
      | none =>
        simp at h
        exact hrt op h
      | some sp =>
        simp at h
        rcases h with h | h
        · exact hrt op h
        · subst h; rfl
    · rw [if_neg hv] at h
      simp at h

def cfgC10 : MergerConfig := { rootDir := "/r" }

def fsC10 : Fs where
  existsSync := fun p => p = "/a/Foo.script.js"
  readdirSync := fun _ => Except.error "ENOENT"
  readFileSync := fun _ => Except.error "ENOENT"

theorem claim_C10_witness :
    FsOp.isWrite (FsOp.existsSync "/a/Foo.script.js") = false :=
  (claim_C10_never_writes cfgC10 1 fsC10 [] "x" "/a/Foo.vue" "/a/Foo.vue"
    (FsOp.existsSync "/a/Foo.script.js")).1 (by decide)

end VueScriptMerger
